import Mathlib

/-!
Verification of the choseong quiz game session core, shallowly embedded
from src/index.jsx.  The embedding models the question bank, the session
state machine handlers (submit, timeout, advance, game end), the
random-comparator shuffle used at game start, and the leaderboard
snapshot recomputation.  Delayed callbacks (setTimeout) are modelled by
an explicit tag recording which cleanup runs and after how many
milliseconds; the external profile store write is modelled by an
optional returned value.
-/

/-- A question record of the static bank (fields chosung, category,
answer, difficulty from the source). -/
structure Question where
  chosung : String
  category : String
  answer : String
  difficulty : Nat
deriving DecidableEq, Repr

/-- Fallback record used to model out-of-range JS array indexing. -/
def defaultQ : Question := ⟨"", "", "", 0⟩

/-- JS array indexing qs[i] on the round list (out of range gives the
fallback record). -/
def qAt : List Question → Nat → Question
  | [], _ => defaultQ
  | q :: _, 0 => q
  | _ :: rest, i + 1 => qAt rest i

/-- Characters removed from both ends by the JS String.prototype.trim. -/
def trimChars (l : List Char) : List Char :=
  ((l.dropWhile Char.isWhitespace).reverse.dropWhile Char.isWhitespace).reverse

/-- Model of the JS String.prototype.trim over the character data. -/
def trimString (s : String) : String := ⟨trimChars s.data⟩

/-- Model of the JS String.prototype.toLowerCase: lowercase every
character. -/
def toLowerString (s : String) : String := ⟨s.data.map Char.toLower⟩

/-- The hardcoded question bank CHOSUNG_QUESTIONS from the source. -/
def CHOSUNG_QUESTIONS : List Question :=
  [ ⟨"ㅇㄴㅎㅅㅇ", "인사말", "안녕하세요", 1⟩,
    ⟨"ㄱㅈ", "간식", "과자", 2⟩,
    ⟨"ㅁㄱ", "동물", "몽구", 2⟩,
    ⟨"ㅅㅁㅌㅍ", "기술", "스마트폰", 3⟩,
    ⟨"ㅈㅈㄷ", "도시", "제주도", 3⟩,
    ⟨"ㅅㅂ", "과일", "수박", 1⟩,
    ⟨"ㄴㄱ", "지리", "남극", 2⟩,
    ⟨"ㅇㅍㅌ", "건축", "아파트", 1⟩,
    ⟨"ㅍㅇㄴ", "악기", "피아노", 3⟩,
    ⟨"ㄷㅈㅉㄱ", "요리", "된장찌개", 2⟩ ]

/-- TIMER_START from the source: time limit per question in seconds. -/
def TIMER_START : Nat := 10

/-- MAX_QUESTIONS from the source: number of questions per game. -/
def MAX_QUESTIONS : Nat := 5

/-- The four UI phases of the app. -/
inductive Phase where
  | start
  | playing
  | result
  | ranking
deriving DecidableEq, Repr

/-- The feedback object {text, type} from the source. -/
structure Feedback where
  text : String
  type : String
deriving DecidableEq, Repr

/-- The mutable game-session state: the React state variables of the
component that the session handlers read and write. -/
structure GameState where
  phase : Phase
  score : Nat
  highScore : Nat
  timeLeft : Nat
  currentQuestionIndex : Nat
  currentQuestion : Option (List Question)
  answerInput : String
  feedback : Feedback
  isNewHighScore : Bool
  showAnswer : Bool
  correctAnswerText : String
  lastWrongInput : String
deriving DecidableEq, Repr

/-- A delayed callback scheduled by setTimeout in a handler: none, the
short advance after a correct answer, or the reveal cleanup and advance
after a wrong answer or timeout. -/
inductive Delayed where
  | none
  | advanceShort
  | revealAdvance
deriving DecidableEq, Repr

/-- The delay in milliseconds attached to each scheduled callback
(500 for the correct branch, 2000 for the wrong/timeout branch). -/
def delayMs : Delayed → Nat
  | Delayed.none => 0
  | Delayed.advanceShort => 500
  | Delayed.revealAdvance => 2000

/-- The normalization applied to both the submitted input and the
canonical answer: trim surrounding whitespace, then lowercase, as in
answerInput.trim().toLowerCase() of the source. -/
def normalizeAnswer (s : String) : String := toLowerString (trimString s)

/-- handleGameEnd from the source: always moves to the result phase;
when score exceeds the cached high score it updates the local high
score, raises the new-high-score flag and, when the store handle is
available (db and userId non-null, modelled by dbOk), issues one
write-through carrying the new value (the returned Option Nat). -/
def handleGameEnd (dbOk : Bool) (s : GameState) : GameState × Option Nat :=
  let s1 := { s with phase := Phase.result }
  if s.highScore < s.score then
    ({ s1 with highScore := s.score, isNewHighScore := true },
     if dbOk then some s.score else Option.none)
  else (s1, Option.none)

/-- handleNextQuestion from the source: computes nextIndex; below
MAX_QUESTIONS it stores it, resets the timer and clears the input,
otherwise it calls handleGameEnd. -/
def handleNextQuestion (dbOk : Bool) (s : GameState) : GameState × Option Nat :=
  let nextIndex := s.currentQuestionIndex + 1
  if nextIndex < MAX_QUESTIONS then
    ({ s with currentQuestionIndex := nextIndex,
              timeLeft := TIMER_START,
              answerInput := "" }, Option.none)
  else
    handleGameEnd dbOk s

/-- handleSubmitAnswer from the source: rejected (no-op, nothing
scheduled) unless the phase is playing, a round is loaded and no
feedback text is showing; otherwise clears the input, compares the
normalized input against the normalized canonical answer and takes the
correct branch (score += 10 + timeLeft * 1, positive feedback, 500 ms
advance) or the wrong branch (record trimmed wrong input, reveal the
answer, negative feedback, 2000 ms reveal-advance). -/
def handleSubmitAnswer (s : GameState) : GameState × Delayed :=
  match s.currentQuestion with
  | Option.none => (s, Delayed.none)
  | some qs =>
    if s.phase ≠ Phase.playing ∨ s.feedback.text ≠ "" then (s, Delayed.none)
    else
      let qData := qAt qs s.currentQuestionIndex
      if normalizeAnswer s.answerInput = normalizeAnswer qData.answer then
        let points := 10 + s.timeLeft * 1
        ({ s with answerInput := "",
                  score := s.score + points,
                  feedback := { text := "정답! (+" ++ toString points ++ "점)",
                                type := "correct" } },
         Delayed.advanceShort)
      else
        ({ s with answerInput := "",
                  lastWrongInput := trimString s.answerInput,
                  correctAnswerText := qData.answer,
                  showAnswer := true,
                  feedback := { text := "오답!", type := "wrong" } },
         Delayed.revealAdvance)

/-- handleTimeOut from the source: returns unchanged when no round is
loaded; otherwise records the fixed timed-out marker, reveals the
canonical answer, shows negative feedback and schedules the 2000 ms
reveal-advance.  Note that it does not clear the input buffer. -/
def handleTimeOut (s : GameState) : GameState × Delayed :=
  match s.currentQuestion with
  | Option.none => (s, Delayed.none)
  | some qs =>
    let qData := qAt qs s.currentQuestionIndex
    ({ s with lastWrongInput := "시간 초과",
              correctAnswerText := qData.answer,
              showAnswer := true,
              feedback := { text := "시간 초과!", type := "wrong" } },
     Delayed.revealAdvance)

/-- Runs the delayed callback scheduled by a handler: the correct
branch clears the feedback and advances; the wrong/timeout branch also
clears the reveal sub-state before advancing. -/
def runDelayed (dbOk : Bool) : Delayed → GameState → GameState × Option Nat
  | Delayed.none, s => (s, Option.none)
  | Delayed.advanceShort, s =>
    handleNextQuestion dbOk { s with feedback := { text := "", type := "" } }
  | Delayed.revealAdvance, s =>
    handleNextQuestion dbOk
      { s with feedback := { text := "", type := "" },
               showAnswer := false,
               correctAnswerText := "",
               lastWrongInput := "" }

/-- A session event delivered to the state machine: the user submits
the raw text currently typed, or the countdown expires. -/
inductive GEvent where
  | submit (raw : String)
  | timeout
deriving DecidableEq, Repr

/-- Runs one event to completion: the immediate handler followed by
the delayed callback it scheduled. -/
def runEvent (dbOk : Bool) (e : GEvent) (s : GameState) : GameState :=
  match e with
  | GEvent.submit raw =>
    let r := handleSubmitAnswer { s with answerInput := raw }
    (runDelayed dbOk r.2 r.1).1
  | GEvent.timeout =>
    let r := handleTimeOut s
    (runDelayed dbOk r.2 r.1).1

/-- Runs a sequence of events. -/
def runEvents (dbOk : Bool) (es : List GEvent) (s : GameState) : GameState :=
  es.foldl (fun s e => runEvent dbOk e s) s

/-- Iterates the advance helper (dropping the write requests). -/
def advanceIter (dbOk : Bool) : Nat → GameState → GameState
  | 0, s => s
  | k + 1, s => advanceIter dbOk k (handleNextQuestion dbOk s).1

/-- One coin-driven insertion of x into a list, consuming one comparator
outcome per element passed: models one insertion of the JS sort run with
the comparator () => Math.random() - 0.5, where each call returns a
random sign (true = keep x in front). -/
def coinInsert (x : Question) : List Question → List Bool → List Question × List Bool
  | [], coins => ([x], coins)
  | y :: ys, coins =>
    if coins.headD false then (x :: y :: ys, coins.tail)
    else
      let r := coinInsert x ys coins.tail
      (y :: r.1, r.2)

/-- Coin-driven stable insertion sort threading the comparator-outcome
stream: a realization of the implementation-defined result of
[...CHOSUNG_QUESTIONS].sort(() => Math.random() - 0.5). -/
def coinSortAux : List Question → List Bool → List Question × List Bool
  | [], coins => ([], coins)
  | x :: xs, coins =>
    let r := coinSortAux xs coins
    coinInsert x r.1 r.2

/-- The shuffled copy of the bank produced at game start, as a function
of the stream of comparator outcomes. -/
def coinSort (coins : List Bool) (l : List Question) : List Question :=
  (coinSortAux l coins).1

/-- startGame from the source, with the randomness (the comparator
outcomes) passed explicitly: shuffles the bank, keeps the first
MAX_QUESTIONS entries and resets the session state. -/
def startGame (isAuthReady : Bool) (coins : List Bool) (s : GameState) : GameState :=
  if !isAuthReady then s
  else
    let gameQuestions := (coinSort coins CHOSUNG_QUESTIONS).take MAX_QUESTIONS
    { s with currentQuestion := some gameQuestions,
             currentQuestionIndex := 0,
             score := 0,
             answerInput := "",
             timeLeft := TIMER_START,
             feedback := { text := "", type := "" },
             showAnswer := false,
             correctAnswerText := "",
             lastWrongInput := "",
             phase := Phase.playing,
             isNewHighScore := false }

/-- A player profile snapshot carried by the ranking feed (fields
userId, nickname, highScore of the stored document). -/
structure Profile where
  userId : String
  nickname : String
  highScore : Nat
deriving DecidableEq, Repr

/-- A derived ranking entry: the profile data plus its 1-based rank. -/
structure RankedEntry where
  rank : Nat
  userId : String
  nickname : String
  highScore : Nat
deriving DecidableEq, Repr

/-- One step of the stable descending insertion sort realizing the JS
sort((a, b) => b.highScore - a.highScore): x is placed before the first
element whose score does not exceed its own, so an element keeps its
place ahead of equal-scored elements that arrived later. -/
def insertDesc (x : Profile) : List Profile → List Profile
  | [] => [x]
  | y :: ys =>
    if y.highScore ≤ x.highScore then x :: y :: ys
    else y :: insertDesc x ys

/-- The stable descending sort of the snapshot by highScore. -/
def sortDesc (l : List Profile) : List Profile :=
  l.foldr insertDesc []

/-- Assigns 1-based ranks down the sorted list, starting after n, as the
final map((data, index) => ({...data, rank: index + 1})) does. -/
def assignRanks : Nat → List Profile → List RankedEntry
  | _, [] => []
  | n, p :: ps => ⟨n + 1, p.userId, p.nickname, p.highScore⟩ :: assignRanks (n + 1) ps

/-- The leaderboard recomputation of the onSnapshot callback: sort the
snapshot by highScore descending (stable) and assign 1-based ranks. -/
def recomputeRankings (snapshot : List Profile) : List RankedEntry :=
  assignRanks 0 (sortDesc snapshot)

/-- The own-rank recomputation: the callback sets myRank once per entry
whose userId matches, so the last match wins; when no entry matches,
the previous value is kept (initially null). -/
def recomputeMyRank (uid : String) (snapshot : List Profile)
    (prev : Option (Nat × Nat)) : Option (Nat × Nat) :=
  (recomputeRankings snapshot).foldl
    (fun acc e => if e.userId = uid then some (e.rank, e.highScore) else acc) prev

/-- Concrete playing state used by witnesses: an ASCII-answer question
with uppercase padded input, 7 seconds left and score 3. -/
def wStateCorrect : GameState :=
  { phase := Phase.playing, score := 3, highScore := 0, timeLeft := 7,
    currentQuestionIndex := 0,
    currentQuestion := some [⟨"ㅇㄴ", "test", "answer", 1⟩],
    answerInput := "  ANSWER  ",
    feedback := { text := "", type := "" },
    isNewHighScore := false, showAnswer := false,
    correctAnswerText := "", lastWrongInput := "" }

/-- Variant of the witness state whose input does not match. -/
def wStateWrong : GameState :=
  { wStateCorrect with answerInput := "  nope  " }

/-- C1: a correct submission in the playing phase with no feedback
active and timeRemaining t awards exactly 10 + t points, and the score
increases by exactly that amount. -/
theorem c1_correct_submission_points (s : GameState) (qs : List Question)
    (hq : s.currentQuestion = some qs)
    (hphase : s.phase = Phase.playing)
    (hfb : s.feedback.text = "")
    (hmatch : normalizeAnswer s.answerInput
      = normalizeAnswer (qAt qs s.currentQuestionIndex).answer) :
    (handleSubmitAnswer s).1.score = s.score + (10 + s.timeLeft) := by
  simp [handleSubmitAnswer, hq, hphase, hfb, hmatch]

/-- Witness for C1: on the concrete state the score goes from 3 to
3 + (10 + 7) = 20. -/
theorem c1_correct_submission_points_witness :
    (handleSubmitAnswer wStateCorrect).1.score = 20 :=
  c1_correct_submission_points wStateCorrect _ rfl rfl rfl (by decide)

/-- C2: a submission is judged correct exactly when the raw input and
the canonical answer, each trimmed and lowercased, are equal. -/
theorem c2_normalized_comparison (s : GameState) (qs : List Question)
    (hq : s.currentQuestion = some qs)
    (hphase : s.phase = Phase.playing)
    (hfb : s.feedback.text = "") :
    ((handleSubmitAnswer s).1.feedback.type = "correct"
      ↔ toLowerString (trimString s.answerInput)
        = toLowerString (trimString (qAt qs s.currentQuestionIndex).answer)) := by
  by_cases h : normalizeAnswer s.answerInput
      = normalizeAnswer (qAt qs s.currentQuestionIndex).answer
  · simp [handleSubmitAnswer, hq, hphase, hfb, h]
    exact h
  · simp [handleSubmitAnswer, hq, hphase, hfb, h]
    exact h

/-- Witness for C2: submitting "  ANSWER  " against canonical "answer"
is judged correct. -/
theorem c2_normalized_comparison_witness :
    (handleSubmitAnswer wStateCorrect).1.feedback.type = "correct" :=
  (c2_normalized_comparison wStateCorrect _ rfl rfl rfl).mpr (by decide)

/-- C8: when feedback is active, or the phase is not playing, or no
round is loaded, handleSubmitAnswer is a complete no-op: the state is
returned unchanged and nothing is scheduled. -/
theorem c8_submit_noop (s : GameState)
    (h : s.feedback.text ≠ "" ∨ s.phase ≠ Phase.playing
        ∨ s.currentQuestion = Option.none) :
    handleSubmitAnswer s = (s, Delayed.none) := by
  rcases hq : s.currentQuestion with _ | qs
  · simp [handleSubmitAnswer, hq]
  · rcases h with h | h | h
    · simp [handleSubmitAnswer, hq, h]
    · simp [handleSubmitAnswer, hq, h]
    · rw [hq] at h
      exact absurd h (by simp)

/-- Witness for C8: with feedback showing, submitting changes nothing. -/
theorem c8_submit_noop_witness :
    handleSubmitAnswer
        { wStateCorrect with feedback := { text := "오답!", type := "wrong" } }
      = ({ wStateCorrect with feedback := { text := "오답!", type := "wrong" } },
         Delayed.none) :=
  c8_submit_noop _ (by simp [wStateCorrect])

/-- C10: an accepted submission clears the input buffer immediately, in
both the match and the no-match branch. -/
theorem c10_input_cleared_immediately (s : GameState) (qs : List Question)
    (hq : s.currentQuestion = some qs)
    (hphase : s.phase = Phase.playing)
    (hfb : s.feedback.text = "") :
    (handleSubmitAnswer s).1.answerInput = "" := by
  by_cases h : normalizeAnswer s.answerInput
      = normalizeAnswer (qAt qs s.currentQuestionIndex).answer
  · simp [handleSubmitAnswer, hq, hphase, hfb, h]
  · simp [handleSubmitAnswer, hq, hphase, hfb, h]

/-- Witness for C10: the wrong-branch submission leaves an empty input
buffer in the immediate result. -/
theorem c10_input_cleared_immediately_witness :
    (handleSubmitAnswer wStateWrong).1.answerInput = "" :=
  c10_input_cleared_immediately wStateWrong _ rfl rfl rfl

/-- C3: with the store handle available, handleGameEnd issues a write
exactly when the final score strictly exceeds the stored high score; in
that case the local high score becomes the final score, the improved
flag is raised and the write carries the final score; otherwise nothing
is written, the flag keeps its (false) value and the local high score
is unchanged. -/
theorem c3_high_score_write_iff (s : GameState) :
    ((handleGameEnd true s).2 ≠ Option.none ↔ s.highScore < s.score)
    ∧ (s.highScore < s.score →
        (handleGameEnd true s).1.highScore = s.score
        ∧ (handleGameEnd true s).1.isNewHighScore = true
        ∧ (handleGameEnd true s).2 = some s.score)
    ∧ (s.score ≤ s.highScore →
        (handleGameEnd true s).2 = Option.none
        ∧ (handleGameEnd true s).1.isNewHighScore = s.isNewHighScore
        ∧ (handleGameEnd true s).1.highScore = s.highScore) := by
  by_cases h : s.highScore < s.score
  · simp [handleGameEnd, h]
  · simp [handleGameEnd, h]

/-- Witness for C3: final score 20 against stored high score 30 writes
nothing and leaves flag and high score alone; and the no-write outcome
is equivalent to 30 not being below 20. -/
theorem c3_high_score_write_iff_witness :
    (handleGameEnd true { wStateCorrect with score := 20, highScore := 30 }).2
        = Option.none
    ∧ (handleGameEnd true { wStateCorrect with score := 20, highScore := 30
        }).1.isNewHighScore = false
    ∧ (handleGameEnd true { wStateCorrect with score := 20, highScore := 30
        }).1.highScore = 30 :=
  (c3_high_score_write_iff _).2.2 (by decide)

/-- C5 counterexample: on the final call the stored question index is
not incremented: from index 4 (round size 5) the advance helper leaves
currentIndex at 4 while transitioning to the result phase. -/
def cStateLast : GameState :=
  { wStateCorrect with currentQuestionIndex := 4 }

/-- C5 is false as stated: the final advance call does not increment
the stored currentIndex (it stays 4, below MAX_QUESTIONS), even though
the phase transitions to Finished. -/
theorem c5_advance_counterexample :
    (handleNextQuestion true cStateLast).1.currentQuestionIndex
        ≠ cStateLast.currentQuestionIndex + 1
    ∧ (handleNextQuestion true cStateLast).1.currentQuestionIndex = 4
    ∧ (handleNextQuestion true cStateLast).1.phase = Phase.result := by
  refine ⟨?_, ?_, ?_⟩ <;> decide

/-- C5 amended: each advance call computes nextIndex = currentIndex +
1; while nextIndex is below the round size the index is stored, the
timer is reset, the input cleared and the phase stays playing;
otherwise the index is left unchanged and the phase becomes result.
Called from index 0 exactly MAX_QUESTIONS times, the session reaches
the result phase on the final call and never before. -/
theorem c5_advance_transitions (dbOk : Bool) (s : GameState)
    (hphase : s.phase = Phase.playing)
    (hidx : s.currentQuestionIndex = 0) :
    (∀ k, k < MAX_QUESTIONS →
      (advanceIter dbOk k s).phase = Phase.playing
      ∧ (advanceIter dbOk k s).currentQuestionIndex = k
      ∧ (0 < k → (advanceIter dbOk k s).timeLeft = TIMER_START
          ∧ (advanceIter dbOk k s).answerInput = ""))
    ∧ (advanceIter dbOk MAX_QUESTIONS s).phase = Phase.result
    ∧ (advanceIter dbOk MAX_QUESTIONS s).currentQuestionIndex
        = MAX_QUESTIONS - 1 := by
  constructor
  · intro k hk
    simp only [MAX_QUESTIONS] at hk
    interval_cases k <;>
      simp [advanceIter, handleNextQuestion, handleGameEnd,
        MAX_QUESTIONS, TIMER_START, hphase, hidx]
  · constructor <;>
    · simp [advanceIter, handleNextQuestion, handleGameEnd,
        MAX_QUESTIONS, TIMER_START, hphase, hidx]
      split <;> simp

/-- Witness for C5: from a concrete playing state at index 0, three
advances stay in the playing phase at index 3 with the timer reset,
and the fifth advance reaches the result phase. -/
theorem c5_advance_transitions_witness :
    (advanceIter true 3 wStateCorrect).phase = Phase.playing
    ∧ (advanceIter true 3 wStateCorrect).currentQuestionIndex = 3
    ∧ (advanceIter true 3 wStateCorrect).timeLeft = TIMER_START
    ∧ (advanceIter true 5 wStateCorrect).phase = Phase.result := by
  have h := c5_advance_transitions true wStateCorrect rfl rfl
  have h3 := h.1 3 (by decide)
  exact ⟨h3.1, h3.2.1, (h3.2.2 (by decide)).1, h.2.1⟩

/-- Advancing never changes the score accumulator. -/
theorem score_advance (dbOk : Bool) (s : GameState) :
    (handleNextQuestion dbOk s).1.score = s.score := by
  simp only [handleNextQuestion, handleGameEnd]
  split
  · rfl
  · split <;> rfl

/-- Delayed callbacks never change the score accumulator. -/
theorem score_runDelayed (dbOk : Bool) (d : Delayed) (s : GameState) :
    (runDelayed dbOk d s).1.score = s.score := by
  cases d <;> simp [runDelayed, score_advance]

/-- A timeout event, run to completion, leaves the score unchanged. -/
theorem score_timeout_eq (dbOk : Bool) (s : GameState) :
    (runEvent dbOk GEvent.timeout s).score = s.score := by
  simp only [runEvent]
  rcases hq : s.currentQuestion with _ | qs <;>
    simp [handleTimeOut, hq, score_runDelayed]

/-- A single event never decreases the score. -/
theorem score_le_runEvent (dbOk : Bool) (e : GEvent) (s : GameState) :
    s.score ≤ (runEvent dbOk e s).score := by
  cases e with
  | timeout => exact le_of_eq (score_timeout_eq dbOk s).symm
  | submit raw =>
    simp only [runEvent]
    rcases hq : s.currentQuestion with _ | qs
    · simp [handleSubmitAnswer, hq, score_runDelayed]
    · by_cases hg : s.phase ≠ Phase.playing ∨ s.feedback.text ≠ ""
      · simp [handleSubmitAnswer, hq, hg, score_runDelayed]
      · by_cases hm : normalizeAnswer raw
            = normalizeAnswer (qAt qs s.currentQuestionIndex).answer
        · simp [handleSubmitAnswer, hq, hg, hm, score_runDelayed]
        · simp [handleSubmitAnswer, hq, hg, hm, score_runDelayed]

/-- A sequence of events never decreases the score. -/
theorem score_le_runEvents (dbOk : Bool) (es : List GEvent) (s : GameState) :
    s.score ≤ (runEvents dbOk es s).score := by
  induction es generalizing s with
  | nil => simp [runEvents]
  | cons e es ih =>
    have h1 := score_le_runEvent dbOk e s
    have h2 := ih (runEvent dbOk e s)
    simp only [runEvents, List.foldl] at h2 ⊢
    omega

/-- C6: across every sequence of submit and timeout events the score is
monotonically non-decreasing; a timeout, and a submission whose
normalized input misses the canonical answer, leave it exactly
unchanged. -/
theorem c6_score_monotone (dbOk : Bool) :
    (∀ es s, s.score ≤ (runEvents dbOk es s).score)
    ∧ (∀ s, (runEvent dbOk GEvent.timeout s).score = s.score)
    ∧ (∀ s raw qs, s.currentQuestion = some qs →
        ¬ normalizeAnswer raw
            = normalizeAnswer (qAt qs s.currentQuestionIndex).answer →
        (runEvent dbOk (GEvent.submit raw) s).score = s.score) := by
  refine ⟨score_le_runEvents dbOk, score_timeout_eq dbOk, ?_⟩
  intro s raw qs hq hm
  simp only [runEvent]
  by_cases hg : s.phase ≠ Phase.playing ∨ s.feedback.text ≠ ""
  · simp [handleSubmitAnswer, hq, hg, score_runDelayed]
  · simp [handleSubmitAnswer, hq, hg, hm, score_runDelayed]

/-- Witness for C6: from the concrete state, a two-event session never
lowers the score, a timeout keeps it at 3, and a wrong submission keeps
it at 3. -/
theorem c6_score_monotone_witness :
    wStateCorrect.score
        ≤ (runEvents true [GEvent.submit "  ANSWER  ", GEvent.timeout]
            wStateCorrect).score
    ∧ (runEvent true GEvent.timeout wStateCorrect).score = wStateCorrect.score
    ∧ (runEvent true (GEvent.submit "nope") wStateCorrect).score
        = wStateCorrect.score :=
  ⟨(c6_score_monotone true).1 _ _,
   (c6_score_monotone true).2.1 _,
   (c6_score_monotone true).2.2 wStateCorrect "nope" _ rfl (by decide)⟩

/-- C7 is false as stated: timeout handling is not identical to the
wrong-answer reveal up to the timed-out marker and the score.  On a
concrete playing state the two handlers also disagree on the input
buffer (submission clears it, timeout leaves it) and on the feedback
message text, while both reveal the answer. -/
theorem c7_timeout_not_identical_counterexample :
    (handleTimeOut wStateWrong).1.answerInput
        ≠ (handleSubmitAnswer wStateWrong).1.answerInput
    ∧ (handleTimeOut wStateWrong).1.feedback.text
        ≠ (handleSubmitAnswer wStateWrong).1.feedback.text
    ∧ (handleTimeOut wStateWrong).1.showAnswer = true
    ∧ (handleSubmitAnswer wStateWrong).1.showAnswer = true := by
  refine ⟨?_, ?_, ?_, ?_⟩ <;> decide

/-- C7 amended: a timeout is handled like a wrong-answer reveal — the
answer is revealed, feedback of type wrong is shown, the same 2000 ms
delayed advance is scheduled, the score is untouched — except that
wrongInputText is the fixed timed-out marker instead of the trimmed
user text, the feedback message text differs, and the input buffer is
left as typed rather than cleared. -/
theorem c7_timeout_vs_wrong_reveal (s : GameState) (qs : List Question)
    (hq : s.currentQuestion = some qs)
    (hphase : s.phase = Phase.playing)
    (hfb : s.feedback.text = "")
    (hm : ¬ normalizeAnswer s.answerInput
        = normalizeAnswer (qAt qs s.currentQuestionIndex).answer) :
    (handleTimeOut s).1.score = s.score
    ∧ (handleSubmitAnswer s).1.score = s.score
    ∧ (handleTimeOut s).1.showAnswer = true
    ∧ (handleSubmitAnswer s).1.showAnswer = true
    ∧ (handleTimeOut s).1.correctAnswerText
        = (qAt qs s.currentQuestionIndex).answer
    ∧ (handleSubmitAnswer s).1.correctAnswerText
        = (qAt qs s.currentQuestionIndex).answer
    ∧ (handleTimeOut s).1.lastWrongInput = "시간 초과"
    ∧ (handleSubmitAnswer s).1.lastWrongInput = trimString s.answerInput
    ∧ (handleTimeOut s).1.feedback.type = "wrong"
    ∧ (handleSubmitAnswer s).1.feedback.type = "wrong"
    ∧ (handleTimeOut s).2 = (handleSubmitAnswer s).2
    ∧ delayMs (handleTimeOut s).2 = 2000
    ∧ (handleTimeOut s).1.answerInput = s.answerInput
    ∧ (handleSubmitAnswer s).1.answerInput = ""
    ∧ (handleTimeOut s).1.phase = (handleSubmitAnswer s).1.phase
    ∧ (handleTimeOut s).1.timeLeft = (handleSubmitAnswer s).1.timeLeft
    ∧ (handleTimeOut s).1.currentQuestionIndex
        = (handleSubmitAnswer s).1.currentQuestionIndex
    ∧ (handleTimeOut s).1.highScore = (handleSubmitAnswer s).1.highScore
    ∧ (handleTimeOut s).1.isNewHighScore
        = (handleSubmitAnswer s).1.isNewHighScore := by
  simp [handleTimeOut, handleSubmitAnswer, hq, hphase, hfb, hm, delayMs]

/-- Witness for C7 amended: on the concrete state, timeout records the
timed-out marker and both handlers schedule the same 2000 ms advance. -/
theorem c7_timeout_vs_wrong_reveal_witness :
    (handleTimeOut wStateWrong).1.lastWrongInput = "시간 초과"
    ∧ (handleTimeOut wStateWrong).2 = (handleSubmitAnswer wStateWrong).2
    ∧ delayMs (handleTimeOut wStateWrong).2 = 2000 := by
  obtain ⟨h1, h2, h3, h4, h5, h6, h7, h8, h9, h10, h11, h12, h13, h14,
    h15, h16, h17, h18, h19⟩ :=
      c7_timeout_vs_wrong_reveal wStateWrong _ rfl rfl rfl (by decide)
  exact ⟨h7, h11, h12⟩

/-- Inserting into the sorted prefix permutes consing. -/
theorem insertDesc_perm (x : Profile) (l : List Profile) :
    List.Perm (insertDesc x l) (x :: l) := by
  induction l with
  | nil => simp [insertDesc]
  | cons y ys ih =>
    simp only [insertDesc]
    split
    · exact List.Perm.refl _
    · exact ((ih.cons y).trans (List.Perm.swap x y ys))

/-- The stable descending sort is a permutation of the snapshot. -/
theorem sortDesc_perm (l : List Profile) : List.Perm (sortDesc l) l := by
  induction l with
  | nil => exact List.Perm.refl _
  | cons x xs ih =>
    simp only [sortDesc, List.foldr]
    exact (insertDesc_perm x _).trans (ih.cons x)

/-- Inserting keeps the list sorted by descending highScore. -/
theorem insertDesc_pairwise (x : Profile) (l : List Profile)
    (h : l.Pairwise (fun a b => b.highScore ≤ a.highScore)) :
    (insertDesc x l).Pairwise (fun a b => b.highScore ≤ a.highScore) := by
  induction l with
  | nil => simp [insertDesc]
  | cons y ys ih =>
    rcases List.pairwise_cons.mp h with ⟨hy, hys⟩
    simp only [insertDesc]
    split
    · rename_i hle
      refine List.pairwise_cons.mpr ⟨?_, h⟩
      intro z hz
      rcases List.mem_cons.mp hz with rfl | hz
      · exact hle
      · exact le_trans (hy z hz) hle
    · rename_i hgt
      push_neg at hgt
      refine List.pairwise_cons.mpr ⟨?_, ih hys⟩
      intro z hz
      rcases List.mem_cons.mp ((insertDesc_perm x ys).mem_iff.mp hz)
        with rfl | hz
      · exact le_of_lt hgt
      · exact hy z hz

/-- The sorted snapshot is in descending highScore order. -/
theorem sortDesc_pairwise (l : List Profile) :
    (sortDesc l).Pairwise (fun a b => b.highScore ≤ a.highScore) := by
  induction l with
  | nil => simp [sortDesc]
  | cons x xs ih =>
    simp only [sortDesc, List.foldr] at ih ⊢
    exact insertDesc_pairwise x _ ih

/-- Inserting an element of score v puts it in front of every other
element of score v; elements of other scores are untouched, so the
filter at any fixed score either gains x at the front or is unchanged. -/
theorem insertDesc_filter (x : Profile) (l : List Profile) (v : Nat) :
    (insertDesc x l).filter (fun p => decide (p.highScore = v))
      = if x.highScore = v
        then x :: l.filter (fun p => decide (p.highScore = v))
        else l.filter (fun p => decide (p.highScore = v)) := by
  induction l with
  | nil =>
    by_cases hx : x.highScore = v <;> simp [insertDesc, List.filter_cons, hx]
  | cons y ys ih =>
    simp only [insertDesc]
    split
    · rename_i hle
      by_cases hx : x.highScore = v <;> simp [List.filter_cons, hx]
    · rename_i hgt
      push_neg at hgt
      by_cases hx : x.highScore = v
      · have hy : ¬ y.highScore = v := by omega
        simp [List.filter_cons, hx, hy, ih]
      · by_cases hy : y.highScore = v <;>
          simp [List.filter_cons, hx, hy, ih]

/-- Stability of the descending sort: restricted to any fixed score,
the sorted snapshot lists exactly the snapshot entries of that score in
their original feed order. -/
theorem sortDesc_filter (l : List Profile) (v : Nat) :
    (sortDesc l).filter (fun p => decide (p.highScore = v))
      = l.filter (fun p => decide (p.highScore = v)) := by
  induction l with
  | nil => rfl
  | cons x xs ih =>
    simp only [sortDesc, List.foldr] at ih ⊢
    rw [insertDesc_filter]
    by_cases hx : x.highScore = v <;> simp [List.filter_cons, hx, ih]

/-- Every derived entry carries the identifier and score of some
profile of the list it was built from. -/
theorem mem_assignRanks (e : RankedEntry) (l : List Profile) :
    ∀ n, e ∈ assignRanks n l →
      ∃ p ∈ l, e.userId = p.userId ∧ e.highScore = p.highScore := by
  induction l with
  | nil => intro n h; simp [assignRanks] at h
  | cons p ps ih =>
    intro n h
    simp only [assignRanks, List.mem_cons] at h
    rcases h with rfl | h
    · exact ⟨p, List.mem_cons_self p ps, rfl, rfl⟩
    · rcases ih (n + 1) h with ⟨q, hq, h1, h2⟩
      exact ⟨q, List.mem_cons_of_mem p hq, h1, h2⟩

/-- Rank assignment preserves the descending score order. -/
theorem assignRanks_pairwise (l : List Profile)
    (h : l.Pairwise (fun a b => b.highScore ≤ a.highScore)) :
    ∀ n, (assignRanks n l).Pairwise
      (fun a b => b.highScore ≤ a.highScore) := by
  induction l with
  | nil => intro n; simp [assignRanks]
  | cons p ps ih =>
    rcases List.pairwise_cons.mp h with ⟨hp, hps⟩
    intro n
    simp only [assignRanks]
    refine List.pairwise_cons.mpr ⟨?_, ih hps (n + 1)⟩
    intro e he
    rcases mem_assignRanks e ps (n + 1) he with ⟨q, hq, _, h2⟩
    simpa [h2] using hp q hq

/-- The entry at sorted position i carries rank n + i + 1. -/
theorem assignRanks_rank (l : List Profile) :
    ∀ n i (h : i < (assignRanks n l).length),
      ((assignRanks n l).get ⟨i, h⟩).rank = n + i + 1 := by
  induction l with
  | nil => intro n i h; simp [assignRanks] at h
  | cons p ps ih =>
    intro n i h
    cases i with
    | zero => simp [assignRanks]
    | succ j =>
      simp only [assignRanks, List.get_cons_succ]
      have := ih (n + 1) j (by
        simpa [assignRanks] using Nat.lt_of_succ_lt_succ h)
      omega

/-- A fold over entries none of which matches the identifier keeps the
accumulator. -/
theorem foldl_myRank_skip (uid : String) (L : List RankedEntry)
    (h : ∀ e ∈ L, e.userId ≠ uid) (acc : Option (Nat × Nat)) :
    L.foldl (fun acc e =>
        if e.userId = uid then some (e.rank, e.highScore) else acc) acc
      = acc := by
  induction L generalizing acc with
  | nil => rfl
  | cons e es ih =>
    have he := h e (List.mem_cons_self e es)
    simp only [List.foldl, he, if_neg he]
    exact ih (fun x hx => h x (List.mem_cons_of_mem e hx)) acc

/-- C9: the leaderboard recompute is a pure function of the snapshot
(identical output on the same snapshot), sorted descending by highScore
with stable tie order, with rank equal to the 1-based sorted position,
and when the player identifier is absent from the snapshot the derived
own-rank value stays absent rather than zero. -/
theorem c9_leaderboard_recompute (uid : String) (snapshot : List Profile) :
    recomputeRankings snapshot = recomputeRankings snapshot
    ∧ (recomputeRankings snapshot).Pairwise
        (fun a b => b.highScore ≤ a.highScore)
    ∧ (∀ v, (sortDesc snapshot).filter (fun p => decide (p.highScore = v))
        = snapshot.filter (fun p => decide (p.highScore = v)))
    ∧ (∀ i (h : i < (recomputeRankings snapshot).length),
        ((recomputeRankings snapshot).get ⟨i, h⟩).rank = i + 1)
    ∧ ((∀ p ∈ snapshot, p.userId ≠ uid) →
        recomputeMyRank uid snapshot Option.none = Option.none) := by
  refine ⟨rfl, ?_, ?_, ?_, ?_⟩
  · exact assignRanks_pairwise _ (sortDesc_pairwise snapshot) 0
  · exact sortDesc_filter snapshot
  · intro i h
    have := assignRanks_rank (sortDesc snapshot) 0 i h
    simpa [recomputeRankings] using this
  · intro habs
    refine foldl_myRank_skip uid _ ?_ Option.none
    intro e he
    rcases mem_assignRanks e (sortDesc snapshot) 0 he with ⟨p, hp, h1, _⟩
    have hp : p ∈ snapshot := (sortDesc_perm snapshot).mem_iff.mp hp
    rw [h1]
    exact habs p hp

/-- Concrete three-profile snapshot used by the C9 witness, with a tie
between the first and third entries. -/
def wSnapshot : List Profile :=
  [⟨"u1", "a", 30⟩, ⟨"u2", "b", 50⟩, ⟨"u3", "c", 30⟩]

/-- Witness for C9: on the concrete snapshot the top entry has rank 1,
the tie keeps feed order, and an absent identifier yields no own rank. -/
theorem c9_leaderboard_recompute_witness :
    ((recomputeRankings wSnapshot).get ⟨0, by decide⟩).rank = 1
    ∧ (sortDesc wSnapshot).filter (fun p => decide (p.highScore = 30))
        = [⟨"u1", "a", 30⟩, ⟨"u3", "c", 30⟩]
    ∧ recomputeMyRank "me" wSnapshot Option.none = Option.none := by
  have h := c9_leaderboard_recompute "me" wSnapshot
  refine ⟨h.2.2.2.1 0 (by decide), ?_, h.2.2.2.2 (by decide)⟩
  rw [h.2.2.1 30]
  decide

/-- Coin-driven insertion yields the element consed in some position. -/
theorem coinInsert_perm (x : Question) (l : List Question)
    (coins : List Bool) :
    List.Perm (coinInsert x l coins).1 (x :: l) := by
  induction l generalizing coins with
  | nil => simp [coinInsert]
  | cons y ys ih =>
    simp only [coinInsert]
    split
    · exact List.Perm.refl _
    · exact ((ih coins.tail).cons y).trans (List.Perm.swap x y ys)

/-- The coin-driven sort permutes its input. -/
theorem coinSortAux_perm (l : List Question) (coins : List Bool) :
    List.Perm (coinSortAux l coins).1 l := by
  induction l generalizing coins with
  | nil => exact List.Perm.refl _
  | cons x xs ih =>
    simp only [coinSortAux]
    exact (coinInsert_perm x _ _).trans ((ih coins).cons x)

/-- The shuffled copy of the bank is a permutation of the bank, for
every stream of comparator outcomes. -/
theorem coinSort_perm (coins : List Bool) (l : List Question) :
    List.Perm (coinSort coins l) l :=
  coinSortAux_perm l coins

/-- C4 is false as stated: the random-comparator shuffle does not make
every permutation of the bank equally likely.  Over the 2 ^ 45 equally
likely outcome streams of one shuffle (45 comparisons bound an
insertion pass over the 10-element bank) the permutations cannot all
have fibers of one common size c, since 10! = 3628800 does not divide
2 ^ 45. -/
theorem c4_not_uniform_counterexample :
    ¬ ∃ c : Nat, ∀ p ∈ CHOSUNG_QUESTIONS.permutations,
        (Finset.univ.filter fun g : Fin 45 → Bool =>
            coinSort (List.ofFn g) CHOSUNG_QUESTIONS = p).card = c := by
  rintro ⟨c, hc⟩
  have ht : ∀ g : Fin 45 → Bool,
      g ∈ (Finset.univ : Finset (Fin 45 → Bool)) →
      coinSort (List.ofFn g) CHOSUNG_QUESTIONS
        ∈ CHOSUNG_QUESTIONS.permutations.toFinset := by
    intro g _
    rw [List.mem_toFinset, List.mem_permutations]
    exact coinSort_perm _ _
  have hsum := Finset.card_eq_sum_card_fiberwise ht
  have hcardU : (Finset.univ : Finset (Fin 45 → Bool)).card = 2 ^ 45 := by
    rw [Finset.card_univ, Fintype.card_fun, Fintype.card_bool,
      Fintype.card_fin]
  have hfact : Nat.factorial 10 = 3628800 := by decide
  have hcardT : CHOSUNG_QUESTIONS.permutations.toFinset.card = 3628800 := by
    rw [List.toFinset_card_of_nodup (List.nodup_permutations _ (by decide)),
      List.length_permutations]
    exact hfact
  have hconst : ∑ p ∈ CHOSUNG_QUESTIONS.permutations.toFinset,
      (Finset.univ.filter fun g : Fin 45 → Bool =>
          coinSort (List.ofFn g) CHOSUNG_QUESTIONS = p).card
      = 3628800 * c := by
    rw [Finset.sum_congr rfl
      (fun p hp => hc p (List.mem_toFinset.mp hp)),
      Finset.sum_const, hcardT, smul_eq_mul]
  rw [hcardU, hconst] at hsum
  have h45 : (2:Nat) ^ 45 = 35184372088832 := by norm_num
  rw [h45] at hsum
  omega

/-- C4 amended: the round selection sorts a copy of the bank with a
random comparator, which always yields some permutation of the bank,
and keeps its first MAX_QUESTIONS elements, so every round consists of
MAX_QUESTIONS distinct questions drawn from the bank; but the
permutation is not uniformly distributed. -/
theorem c4_round_selection (coins : List Bool) :
    List.Perm (coinSort coins CHOSUNG_QUESTIONS) CHOSUNG_QUESTIONS
    ∧ ((coinSort coins CHOSUNG_QUESTIONS).take MAX_QUESTIONS).length
        = MAX_QUESTIONS
    ∧ ((coinSort coins CHOSUNG_QUESTIONS).take MAX_QUESTIONS).Nodup
    ∧ (∀ q ∈ (coinSort coins CHOSUNG_QUESTIONS).take MAX_QUESTIONS,
        q ∈ CHOSUNG_QUESTIONS) := by
  have hperm := coinSort_perm coins CHOSUNG_QUESTIONS
  have hlen : (coinSort coins CHOSUNG_QUESTIONS).length = 10 := by
    rw [hperm.length_eq]
    rfl
  have hnodup : (coinSort coins CHOSUNG_QUESTIONS).Nodup :=
    hperm.nodup_iff.mpr (by decide)
  refine ⟨hperm, ?_, ?_, ?_⟩
  · rw [List.length_take, hlen]
    rfl
  · exact hnodup.sublist (List.take_sublist _ _)
  · intro q hq
    exact hperm.subset ((List.take_subset _ _) hq)

/-- Witness for C4 amended: with a concrete outcome stream the round
has length MAX_QUESTIONS and its first entry is drawn from the bank. -/
theorem c4_round_selection_witness :
    ((coinSort [true, false, true] CHOSUNG_QUESTIONS).take
        MAX_QUESTIONS).length = MAX_QUESTIONS
    ∧ qAt ((coinSort [true, false, true] CHOSUNG_QUESTIONS).take
        MAX_QUESTIONS) 0 ∈ CHOSUNG_QUESTIONS := by
  have h := c4_round_selection [true, false, true]
  exact ⟨h.2.1, h.2.2.2 _ (by decide)⟩
